import Mathlib

/-!
# A shallow embedding of the rax repository

This file embeds the three source modules of the repository —
`src/optimizer.rs`, `src/autograd.rs` and `src/tensor.rs` — as executable
Lean definitions and settles the specification claims against them.

Modelling conventions:
* `f64` values are modelled by `ℚ` (exact arithmetic); `f64::sqrt`, `f64::exp`
  and the random draws of `rand`, which have no exact rational counterpart,
  are passed around as explicit function parameters.
* A Rust panic is modelled by `none` (or a dedicated constructor that records
  the state at the moment of the panic).
* `Rc<RefCell<_>>` heaps are modelled by an explicit store indexed by
  allocation order; a `Weak` reference is an index whose entry may have been
  dropped (`none`), in which case `upgrade` fails.
-/

namespace Rax

/-! ## Optimizers (src/optimizer.rs)

Each `struct` and its `impl Optimizer` block is translated field by field.
The `step` loops iterate over `zip`s of iterators, which stop at the shortest
list; the translations below recurse the same way. -/

/-- `struct SGD` (src/optimizer.rs). -/
structure SGD where
  learning_rate : ℚ

/-- `struct Adam` (src/optimizer.rs). -/
structure Adam where
  learning_rate : ℚ
  beta1 : ℚ
  beta2 : ℚ
  epsilon : ℚ
  m : List ℚ
  v : List ℚ
  t : ℕ

/-- `struct RMSprop` (src/optimizer.rs). -/
structure RMSprop where
  learning_rate : ℚ
  decay_rate : ℚ
  epsilon : ℚ
  cache : List ℚ

/-- `struct AdaGrad` (src/optimizer.rs). -/
structure AdaGrad where
  learning_rate : ℚ
  epsilon : ℚ
  cache : List ℚ

/-- `struct Momentum` (src/optimizer.rs). -/
structure Momentum where
  learning_rate : ℚ
  momentum : ℚ
  velocity : List ℚ

/-- `struct SimpleRandomSearch` (src/optimizer.rs). The `rng` field is a
handle to the shared thread-local generator; the draws themselves are passed
to `step` as an explicit stream, so the model keeps only `step_size`. -/
structure SimpleRandomSearch where
  step_size : ℚ

/-- `struct GridSearch` (src/optimizer.rs). -/
structure GridSearch where
  step_size : ℚ
  current_dim : ℕ
  direction : ℤ

/-- `SGD::new`. -/
def SGD.new (learning_rate : ℚ) : SGD := ⟨learning_rate⟩

/-- `Adam::new`: moment vectors start empty, step count at zero. -/
def Adam.new (lr b1 b2 eps : ℚ) : Adam := ⟨lr, b1, b2, eps, [], [], 0⟩

/-- `RMSprop::new`. -/
def RMSprop.new (lr dr eps : ℚ) : RMSprop := ⟨lr, dr, eps, []⟩

/-- `AdaGrad::new`. -/
def AdaGrad.new (lr eps : ℚ) : AdaGrad := ⟨lr, eps, []⟩

/-- `Momentum::new`. -/
def Momentum.new (lr mom : ℚ) : Momentum := ⟨lr, mom, []⟩

/-- `SimpleRandomSearch::new`. -/
def SimpleRandomSearch.new (s : ℚ) : SimpleRandomSearch := ⟨s⟩

/-- `GridSearch::new`: starts at dimension 0 with direction `1`. -/
def GridSearch.new (s : ℚ) : GridSearch := ⟨s, 0, 1⟩

/-- The loop of `SGD::step`:
`for (param, grad) in params.iter_mut().zip(grads.iter()) { *param -= lr * grad }`.
The zip stops at the shorter list; later parameters are untouched. -/
def SGD.stepParams (lr : ℚ) : List ℚ → List ℚ → List ℚ
  | p :: ps, g :: gs => (p - lr * g) :: SGD.stepParams lr ps gs
  | ps, _ => ps

/-- `impl Optimizer for SGD`, `fn step`. -/
def SGD.step (s : SGD) (params grads : List ℚ) : SGD × List ℚ :=
  (s, SGD.stepParams s.learning_rate params grads)

/-- `impl Optimizer for SGD`, `fn reset` (a no-op). -/
def SGD.reset (s : SGD) : SGD := s

/-- Common shape of the RMSprop, AdaGrad and Momentum loops: walk
`params.iter_mut().zip(grads.iter()).zip(cache.iter_mut())`, rewriting each
matched (param, cache) pair with `f`; entries past the shortest list are
untouched.  Returns the parameter list and the cache list after the loop. -/
def cacheLoop (f : ℚ → ℚ → ℚ → ℚ × ℚ) : List ℚ → List ℚ → List ℚ → List ℚ × List ℚ
  | p :: ps, g :: gs, c :: cs =>
    let pc := f p g c
    let rest := cacheLoop f ps gs cs
    (pc.1 :: rest.1, pc.2 :: rest.2)
  | ps, _, cs => (ps, cs)

/-- The body of the `RMSprop::step` loop:
`cache = decay*cache + (1-decay)*grad*grad; param -= lr*grad/(cache.sqrt()+eps)`. -/
def RMSprop.update (lr dr eps : ℚ) (sq : ℚ → ℚ) (p g c : ℚ) : ℚ × ℚ :=
  let c1 := dr * c + (1 - dr) * g * g
  (p - lr * g / (sq c1 + eps), c1)

/-- `impl Optimizer for RMSprop`, `fn step`: lazily initialises `cache` to
zeros of `params.len()` when empty, then runs the loop.  `sq` models
`f64::sqrt`. -/
def RMSprop.step (sq : ℚ → ℚ) (s : RMSprop) (params grads : List ℚ) : RMSprop × List ℚ :=
  let cache0 := if s.cache.isEmpty then List.replicate params.length 0 else s.cache
  let r := cacheLoop (RMSprop.update s.learning_rate s.decay_rate s.epsilon sq) params grads cache0
  ({ s with cache := r.2 }, r.1)

/-- `impl Optimizer for RMSprop`, `fn reset`: clears the cache. -/
def RMSprop.reset (s : RMSprop) : RMSprop := { s with cache := [] }

/-- The body of the `AdaGrad::step` loop:
`cache += grad*grad; param -= lr*grad/(cache.sqrt()+eps)`. -/
def AdaGrad.update (lr eps : ℚ) (sq : ℚ → ℚ) (p g c : ℚ) : ℚ × ℚ :=
  let c1 := c + g * g
  (p - lr * g / (sq c1 + eps), c1)

/-- `impl Optimizer for AdaGrad`, `fn step`. -/
def AdaGrad.step (sq : ℚ → ℚ) (s : AdaGrad) (params grads : List ℚ) : AdaGrad × List ℚ :=
  let cache0 := if s.cache.isEmpty then List.replicate params.length 0 else s.cache
  let r := cacheLoop (AdaGrad.update s.learning_rate s.epsilon sq) params grads cache0
  ({ s with cache := r.2 }, r.1)

/-- `impl Optimizer for AdaGrad`, `fn reset`: clears the cache. -/
def AdaGrad.reset (s : AdaGrad) : AdaGrad := { s with cache := [] }

/-- The body of the `Momentum::step` loop:
`velocity = momentum*velocity - lr*grad; param += velocity`. -/
def Momentum.update (lr mom : ℚ) (p g v : ℚ) : ℚ × ℚ :=
  let v1 := mom * v - lr * g
  (p + v1, v1)

/-- `impl Optimizer for Momentum`, `fn step`. -/
def Momentum.step (s : Momentum) (params grads : List ℚ) : Momentum × List ℚ :=
  let vel0 := if s.velocity.isEmpty then List.replicate params.length 0 else s.velocity
  let r := cacheLoop (Momentum.update s.learning_rate s.momentum) params grads vel0
  ({ s with velocity := r.2 }, r.1)

/-- `impl Optimizer for Momentum`, `fn reset`: clears the velocity. -/
def Momentum.reset (s : Momentum) : Momentum := { s with velocity := [] }

/-- The body of the `Adam::step` loop at step count `t`:
`m = b1*m + (1-b1)*g; v = b2*v + (1-b2)*g*g;
m_hat = m/(1-b1^t); v_hat = v/(1-b2^t);
param -= lr * m_hat / (v_hat.sqrt() + eps)`.
Returns the new (param, m, v). -/
def Adam.update (lr b1 b2 eps : ℚ) (sq : ℚ → ℚ) (t : ℕ) (p g m v : ℚ) : ℚ × ℚ × ℚ :=
  let m1 := b1 * m + (1 - b1) * g
  let v1 := b2 * v + (1 - b2) * g * g
  let m_hat := m1 / (1 - b1 ^ t)
  let v_hat := v1 / (1 - b2 ^ t)
  (p - lr * m_hat / (sq v_hat + eps), m1, v1)

/-- The loop of `Adam::step`: walks
`params.iter_mut().zip(grads.iter()).zip(m.iter_mut().zip(v.iter_mut()))`;
entries past the shortest of the four lists are untouched.
Returns (params, m, v) after the loop. -/
def Adam.stepLoop (lr b1 b2 eps : ℚ) (sq : ℚ → ℚ) (t : ℕ) :
    List ℚ → List ℚ → List ℚ → List ℚ → List ℚ × List ℚ × List ℚ
  | p :: ps, g :: gs, m :: ms, v :: vs =>
    let u := Adam.update lr b1 b2 eps sq t p g m v
    let rest := Adam.stepLoop lr b1 b2 eps sq t ps gs ms vs
    (u.1 :: rest.1, u.2.1 :: rest.2.1, u.2.2 :: rest.2.2)
  | ps, _, ms, vs => (ps, ms, vs)

/-- The lazy initialisation at the top of `Adam::step`: when `m` is empty,
the `m` vector becomes zeros of `params.len()`. -/
def Adam.initM (s : Adam) (params : List ℚ) : List ℚ :=
  if s.m.isEmpty then List.replicate params.length 0 else s.m

/-- The lazy initialisation at the top of `Adam::step`: when `m` is empty
(the source tests only `m`), the `v` vector becomes zeros of `params.len()`. -/
def Adam.initV (s : Adam) (params : List ℚ) : List ℚ :=
  if s.m.isEmpty then List.replicate params.length 0 else s.v

/-- `impl Optimizer for Adam`, `fn step`: when `m` is empty, both `m` and `v`
are initialised to zeros of `params.len()`; `t` is incremented before the
loop, so the first step uses `t = 1`. -/
def Adam.step (sq : ℚ → ℚ) (s : Adam) (params grads : List ℚ) : Adam × List ℚ :=
  let m0 := Adam.initM s params
  let v0 := Adam.initV s params
  let t1 := s.t + 1
  let r := Adam.stepLoop s.learning_rate s.beta1 s.beta2 s.epsilon sq t1 params grads m0 v0
  ({ s with m := r.2.1, v := r.2.2, t := t1 }, r.1)

/-- `impl Optimizer for Adam`, `fn reset`: clears `m`, `v` and the count. -/
def Adam.reset (s : Adam) : Adam := { s with m := [], v := [], t := 0 }

/-- `impl Optimizer for SimpleRandomSearch`, `fn step`: adds a fresh draw from
`rng.gen_range(-step_size..step_size)` to every parameter.  `rand i` models
the i-th draw of this call; `gen_range` panics (modelled as `none`) when the
range is empty, i.e. when `step_size <= 0`, which is reached as soon as there
is at least one parameter. -/
def SimpleRandomSearch.step (rand : ℕ → ℚ) (s : SimpleRandomSearch) (params : List ℚ) :
    Option (SimpleRandomSearch × List ℚ) :=
  if params.isEmpty then some (s, params)
  else if s.step_size ≤ 0 then none
  else some (s, params.mapIdx (fun i p => p + rand i))

/-- `impl Optimizer for SimpleRandomSearch`, `fn reset`: re-fetches the
thread-local generator handle; the modelled state is unchanged. -/
def SimpleRandomSearch.reset (s : SimpleRandomSearch) : SimpleRandomSearch := s

/-- Outcome of `GridSearch::step`: the updated optimizer and parameters, or a
panic raised by the out-of-bounds index `params[self.current_dim]`, carrying
the optimizer state at the moment of the panic (no field of `self` has been
written at that point). -/
inductive GridOutcome where
  | ok (st : GridSearch) (params : List ℚ)
  | indexPanic (st : GridSearch)

/-- `impl Optimizer for GridSearch`, `fn step`:
`params[current_dim] += step_size * direction as f64;
current_dim = (current_dim + 1) % params.len();
if current_dim == 0 { direction *= -1 }`.
The indexing panics when `current_dim` is out of bounds (in particular on an
empty parameter vector), before any state change. -/
def GridSearch.step (s : GridSearch) (params : List ℚ) : GridOutcome :=
  if s.current_dim < params.length then
    let params1 := params.set s.current_dim
      (params.getD s.current_dim 0 + s.step_size * (s.direction : ℚ))
    let cd := (s.current_dim + 1) % params.length
    let dir := if cd = 0 then -s.direction else s.direction
    .ok ⟨s.step_size, cd, dir⟩ params1
  else .indexPanic s

/-- `impl Optimizer for GridSearch`, `fn reset`. -/
def GridSearch.reset (s : GridSearch) : GridSearch := { s with current_dim := 0, direction := 1 }

/-! ### The `Optimizer` trait, over all variants -/

/-- The constructor arguments of each optimizer variant (its `new` call). -/
inductive OptInit where
  | sgd (lr : ℚ)
  | adam (lr b1 b2 eps : ℚ)
  | rmsprop (lr dr eps : ℚ)
  | adagrad (lr eps : ℚ)
  | momentum (lr mom : ℚ)
  | simpleRandomSearch (s : ℚ)
  | gridSearch (s : ℚ)

/-- The state of an optimizer of any variant. -/
inductive OptState where
  | sgd (s : SGD)
  | adam (s : Adam)
  | rmsprop (s : RMSprop)
  | adagrad (s : AdaGrad)
  | momentum (s : Momentum)
  | simpleRandomSearch (s : SimpleRandomSearch)
  | gridSearch (s : GridSearch)

/-- A brand-new optimizer instance, per variant (`T::new(args)`). -/
def mkOpt : OptInit → OptState
  | .sgd lr => .sgd (SGD.new lr)
  | .adam lr b1 b2 eps => .adam (Adam.new lr b1 b2 eps)
  | .rmsprop lr dr eps => .rmsprop (RMSprop.new lr dr eps)
  | .adagrad lr eps => .adagrad (AdaGrad.new lr eps)
  | .momentum lr mom => .momentum (Momentum.new lr mom)
  | .simpleRandomSearch s => .simpleRandomSearch (SimpleRandomSearch.new s)
  | .gridSearch s => .gridSearch (GridSearch.new s)

/-- `reset` dispatched through the `Optimizer` trait. -/
def OptState.reset : OptState → OptState
  | .sgd s => .sgd (SGD.reset s)
  | .adam s => .adam (Adam.reset s)
  | .rmsprop s => .rmsprop (RMSprop.reset s)
  | .adagrad s => .adagrad (AdaGrad.reset s)
  | .momentum s => .momentum (Momentum.reset s)
  | .simpleRandomSearch s => .simpleRandomSearch (SimpleRandomSearch.reset s)
  | .gridSearch s => .gridSearch (GridSearch.reset s)

/-- One `step` call dispatched through the `Optimizer` trait; `none` models a
panic.  `sq` models `f64::sqrt` and `rand` the random draws of this call. -/
def OptState.step (sq : ℚ → ℚ) (rand : ℕ → ℚ) :
    OptState → List ℚ → List ℚ → Option (OptState × List ℚ)
  | .sgd s, p, g => some (.sgd (SGD.step s p g).1, (SGD.step s p g).2)
  | .adam s, p, g => some (.adam (Adam.step sq s p g).1, (Adam.step sq s p g).2)
  | .rmsprop s, p, g => some (.rmsprop (RMSprop.step sq s p g).1, (RMSprop.step sq s p g).2)
  | .adagrad s, p, g => some (.adagrad (AdaGrad.step sq s p g).1, (AdaGrad.step sq s p g).2)
  | .momentum s, p, g => some (.momentum (Momentum.step s p g).1, (Momentum.step s p g).2)
  | .simpleRandomSearch s, p, _ =>
    (SimpleRandomSearch.step rand s p).map (fun r => (.simpleRandomSearch r.1, r.2))
  | .gridSearch s, p, _ =>
    match GridSearch.step s p with
    | .ok st ps => some (.gridSearch st, ps)
    | .indexPanic _ => none

/-- Whether a variant is the grid-search one. -/
def OptInit.isGridSearchB : OptInit → Bool
  | .gridSearch _ => true
  | _ => false

/-- Whether a variant is gradient-based (consumes the gradient list):
SGD, Adam, RMSprop, AdaGrad or Momentum. -/
def OptInit.isGradientBasedB : OptInit → Bool
  | .sgd _ => true
  | .adam _ _ _ _ => true
  | .rmsprop _ _ _ => true
  | .adagrad _ _ => true
  | .momentum _ _ => true
  | _ => false

/-! ## Autograd (src/autograd.rs)

`Tensor` cells (`Rc<RefCell<Tensor>>`) live in a store indexed by allocation
order, and so do `GraphNode` allocations.  A node-store entry that has been
dropped is `none`; `Weak::upgrade` on an index whose entry is `none` fails.
Array data is modelled by its flat element list (the claims only exercise
equal-shape elementwise operations and all-ones seeds). -/

/-- `struct Tensor` (src/autograd.rs).  `creator` is the `Weak` back-reference
to the producing `GraphNode`, modelled as an index into the node store. -/
structure Tensor where
  data : List ℚ
  grad : Option (List ℚ)
  requires_grad : Bool
  creator : Option ℕ
deriving DecidableEq

/-- The `backward_fn` closures that occur in the source.  Only `add` builds a
`GraphNode`, so the single tag stands for the closure
`|grad, inputs| { inputs[0].grad = Some(grad); inputs[1].grad = Some(grad) }`. -/
inductive BackwardFn where
  | addFn
deriving DecidableEq

/-- `struct GraphNode` (src/autograd.rs): operation tag, strong references to
the input tensor cells (store indices), and the boxed backward closure. -/
structure GraphNode where
  operation : String
  inputs : List ℕ
  backward_fn : BackwardFn
deriving DecidableEq

/-- The two heaps: tensor cells and graph-node allocations, each indexed by
allocation order.  A dropped `GraphNode` is `none`. -/
structure AGState where
  tensors : List Tensor
  nodes : List (Option GraphNode)
deriving DecidableEq

/-- The empty heap. -/
def emptyAG : AGState := ⟨[], []⟩

/-- Read a tensor cell.  Indices in the model always come from allocations
(`Rc` cannot dangle), so the default is never consulted in reachable states. -/
def getT (st : AGState) (i : ℕ) : Tensor := st.tensors.getD i ⟨[], none, false, none⟩

/-- `Rc::new(RefCell::new(t))`: append a fresh tensor cell, returning its index. -/
def allocT (st : AGState) (t : Tensor) : AGState × ℕ :=
  ({ st with tensors := st.tensors ++ [t] }, st.tensors.length)

/-- Overwrite a tensor cell (a `borrow_mut` write-back). -/
def setT (st : AGState) (i : ℕ) (t : Tensor) : AGState :=
  { st with tensors := st.tensors.set i t }

/-- Write the `grad` field of the tensor in cell `i`. -/
def setGrad (st : AGState) (i : ℕ) (g : Option (List ℚ)) : AGState :=
  setT st i { getT st i with grad := g }

/-- `Rc::new(RefCell::new(node))`: append a live graph-node allocation. -/
def allocNode (st : AGState) (n : GraphNode) : AGState × ℕ :=
  ({ st with nodes := st.nodes ++ [some n] }, st.nodes.length)

/-- The strong count of a node allocation reaching zero: the node is dropped
and any `Weak` reference to it can no longer be upgraded. -/
def dropNode (st : AGState) (i : ℕ) : AGState :=
  { st with nodes := st.nodes.set i none }

/-- `Weak::upgrade` on the creator reference: `some` only while the node
allocation is still live. -/
def upgradeNode (st : AGState) (i : ℕ) : Option GraphNode := (st.nodes.getD i none).join

/-- `Tensor::new(data, requires_grad)`: no gradient, no creator. -/
def Tensor.new (data : List ℚ) (requires_grad : Bool) : Tensor :=
  ⟨data, none, requires_grad, none⟩

/-- Allocate a fresh leaf tensor cell. -/
def mkLeaf (st : AGState) (data : List ℚ) (requires_grad : Bool) : AGState × ℕ :=
  allocT st (Tensor.new data requires_grad)

/-- `&t1.data + &t2.data`: elementwise addition (the claims use equal-shape
operands, where ndarray addition is plain elementwise addition). -/
def addData (a b : List ℚ) : List ℚ := List.zipWith (· + ·) a b

/-- `Array::ones(t.raw_dim())`: the all-ones array of the same shape. -/
def onesLike (d : List ℚ) : List ℚ := List.replicate d.length 1

/-- `fn add` (src/autograd.rs): computes the forward value, allocates the
output cell, and — when a gradient is required — builds a `GraphNode` whose
only strong owner is the temporary `Rc` inside
`Rc::downgrade(&Rc::new(RefCell::new(node)))`.  That temporary is dropped at
the end of the statement, so the output keeps a `Weak` creator reference to an
already-dropped allocation. -/
def add (st : AGState) (t1 t2 : ℕ) : AGState × ℕ :=
  let data := addData (getT st t1).data (getT st t2).data
  let requires_grad := (getT st t1).requires_grad || (getT st t2).requires_grad
  let st1out := allocT st (Tensor.new data requires_grad)
  let st1 := st1out.1
  let out := st1out.2
  if requires_grad then
    let node : GraphNode := ⟨"add", [t1, t2], .addFn⟩
    let st2nid := allocNode st1 node
    let st2 := st2nid.1
    let nid := st2nid.2
    let st3 := dropNode st2 nid
    let st4 := setT st3 out { getT st3 out with creator := some nid }
    (st4, out)
  else (st1, out)

/-- Run a recorded `backward_fn` closure.  For `add` this is
`inputs[0].grad = Some(grad.clone()); inputs[1].grad = Some(grad.clone())` —
each write overwrites whatever gradient the input held.  Fewer than two
inputs would panic on the indexing (`none`); `add` always records two. -/
def runBackwardFn : BackwardFn → List ℚ → List ℕ → AGState → Option AGState
  | .addFn, g, i0 :: i1 :: _, st => some (setGrad (setGrad st i0 (some g)) i1 (some g))
  | .addFn, _, _, _ => none

/-- The `while let Some(node) = stack.pop()` loop of `Tensor::backward`.
The list head is the stack top.  Each iteration pops one entry; if its
creator upgrades, the closure runs with the popped tensor's gradient
(`unwrap` on a missing gradient panics, modelled as `none`) and the node's
inputs are pushed.  `fuel` bounds the number of iterations; an empty stack
returns regardless of fuel, exactly as the source loop exits. -/
def backwardLoop (fuel : ℕ) (stack : List ℕ) (st : AGState) : Option AGState :=
  match stack with
  | [] => some st
  | i :: rest =>
    match fuel with
    | 0 => none
    | fuel + 1 =>
      match (getT st i).creator with
      | none => backwardLoop fuel rest st
      | some w =>
        match upgradeNode st w with
        | none => backwardLoop fuel rest st
        | some node =>
          match (getT st i).grad with
          | none => none
          | some g =>
            match runBackwardFn node.backward_fn g node.inputs st with
            | none => none
            | some st1 => backwardLoop fuel (node.inputs.reverse ++ rest) st1

/-- `Tensor::backward` on the tensor in cell `root`: seed the gradient with
all-ones if absent, push `Rc::new(RefCell::new(self.clone()))` — a fresh cell
holding a clone of the root — and run the loop. -/
def backward (st : AGState) (root : ℕ) (fuel : ℕ) : Option AGState :=
  let t := getT st root
  let st1 := if t.grad.isNone then setGrad st root (some (onesLike t.data)) else st
  let st2cl := allocT st1 (getT st1 root)
  backwardLoop fuel [st2cl.2] st2cl.1

/-- Gradient lookup on cell `i`. -/
def gradOf (st : AGState) (i : ℕ) : Option (List ℚ) := (getT st i).grad

/-- The two-leaf scenario of the claims: leaves `a` (cell 0) and `b` (cell 1),
`c = add(a, b)` (cell 2), an optional seed written into `c.grad`, then
`c.backward()`. -/
def addScenario (da db : List ℚ) (ra rb : Bool) (seed : Option (List ℚ)) (fuel : ℕ) :
    Option AGState :=
  let st1a := mkLeaf emptyAG da ra
  let st2b := mkLeaf st1a.1 db rb
  let st3c := add st2b.1 st1a.2 st2b.2
  let st4 := match seed with
    | none => st3c.1
    | some g => setGrad st3c.1 st3c.2 (some g)
  backward st4 st3c.2 fuel

/-- The shared-use scenario of the claims: leaf `x` (cell 0),
`y = add(x, x)` (cell 1), a seed written into `y.grad`, then `y.backward()`. -/
def addSelfScenario (dx : List ℚ) (seed : Option (List ℚ)) (fuel : ℕ) : Option AGState :=
  let st1x := mkLeaf emptyAG dx true
  let st2y := add st1x.1 st1x.2 st1x.2
  let st3 := match seed with
    | none => st2y.1
    | some g => setGrad st2y.1 st2y.2 (some g)
  backward st3 st2y.2 fuel

/-! ## Tensor math (src/tensor.rs)

Only the functions the claims exercise are embedded: `softmax` on a 1-D
array, and `transpose` with `axes = None` on a dynamic-dimension array. -/

/-- Stabilising maximum used by `softmax`: the source folds `f64::max` from
`NEG_INFINITY`.  On a nonempty list that fold is the list maximum; on an
empty list the fold result (negative infinity) is never consumed, because the
subsequent `mapv` maps over no elements, so the placeholder value 0 below is
never consulted either. -/
def foldMax : List ℚ → ℚ
  | [] => 0
  | x :: xs => xs.foldl max x

/-- `fn softmax` (src/tensor.rs): subtract the maximum for stability,
exponentiate, and divide each entry by the total.  `expf` models `f64::exp`
(a strictly positive function on the reals). -/
def softmax (expf : ℚ → ℚ) (input : List ℚ) : List ℚ :=
  let m := foldMax input
  let exp_values := input.map (fun x => expf (x - m))
  let sum := exp_values.sum
  exp_values.map (fun v => v / sum)

/-- An `Array<f64, IxDyn>`: a shape and the row-major list of elements. -/
structure Nd where
  shape : List ℕ
  data : List ℚ
deriving DecidableEq

/-- A well-formed array has exactly one data element per index. -/
def Nd.wf (a : Nd) : Prop := a.data.length = a.shape.prod

/-- Row-major flat position of a multi-index. -/
def flatIx : List ℕ → List ℕ → ℕ
  | _ :: ds, i :: is => i * ds.prod + flatIx ds is
  | _, _ => 0

/-- Multi-index of a row-major flat position. -/
def unflatIx : List ℕ → ℕ → List ℕ
  | [], _ => []
  | _ :: ds, p => p / ds.prod :: unflatIx ds (p % ds.prod)

/-- Componentwise bound of a multi-index by a shape. -/
def okIx : List ℕ → List ℕ → Prop
  | [], [] => True
  | d :: ds, i :: is => i < d ∧ okIx ds is
  | _, _ => False

/-- `fn transpose` with `axes = None` (src/tensor.rs): `input.t().to_owned()`
reverses the axis order, so the element of the result at multi-index `ix` is
the element of the input at `ix.reverse`, and `to_owned` materialises the
result in row-major order. -/
def transpose (a : Nd) : Nd :=
  ⟨a.shape.reverse,
   (List.range a.shape.reverse.prod).map
     (fun p => a.data.getD (flatIx a.shape ((unflatIx a.shape.reverse p).reverse)) 0)⟩

/-! ## Claims about the autograd engine -/

/-- Claim C1: for tracked `a`, `b` and `c = add(a, b)`, backward on `c` with
seed `g` is claimed to yield `gradient(a) == g` and `gradient(b) == g`.  The
code does not: with `a = [1]`, `b = [2]` tracked and seed `g = [5]`, after
backward both operand gradients are still absent, because the `GraphNode`
built by `add` is owned only by a temporary `Rc` that is dropped before `add`
returns, so the `Weak` creator reference can never be upgraded and the
backward closure never runs. -/
theorem c1_addBackwardGradientsAbsent :
    (addScenario [1] [2] true true (some [5]) 3).map
      (fun st => (gradOf st 0, gradOf st 1)) = some (none, none) := by
  decide

/-- Claim C2: for tracked `x` and `y = add(x, x)`, backward with seed `1.0`
is claimed to yield `gradient(x) == 2.0`.  The code does not: the gradient of
`x` is still absent after backward (dead `Weak` creator reference, as in C1);
moreover the recorded closure of `add` overwrites each input gradient with
the upstream gradient instead of accumulating, so even running it by hand on
the shared input stores `[1]`, not `[2]`. -/
theorem c2_sharedUseGradientAbsent :
    (addSelfScenario [0] (some [1]) 3).map (fun st => gradOf st 0) = some none ∧
    (runBackwardFn .addFn [1] [0, 0] (mkLeaf emptyAG [0] true).1).map
      (fun st => gradOf st 0) = some (some [1]) := by
  decide

/-- Claim C3, counterexample: with both operands untracked (`a = [1,2]`,
`b = [3,4]`, `tracked = false`), the claim says the result node has no
gradient after backward.  In the code, `backward` unconditionally seeds the
root gradient with all-ones when it is absent, so the gradient lookup on the
result node returns `[1, 1]`, not absent. -/
theorem c3_untrackedRootSeeded :
    (addScenario [1, 2] [3, 4] false false none 3).map (fun st => gradOf st 2) =
      some (some [1, 1]) := by
  decide

/-- Claim C3, amended: if both operands are untracked, `add` records no
`GraphNode` and the result has no creator; running backward raises no error,
stores the all-ones seed as the result node's own gradient (so the gradient
lookup on the result returns the seed, not absent), and stores no gradient
for either operand. -/
theorem c3_untrackedBackwardSeedsOnlyRoot (da db : List ℚ) (fuel : ℕ) :
    (addScenario da db false false none (fuel + 1)).map
      (fun st => (gradOf st 2, gradOf st 0, gradOf st 1)) =
      some (some (onesLike (addData da db)), none, none) := by
  show (backwardLoop (fuel + 1) [3]
      ⟨[⟨da, none, false, none⟩, ⟨db, none, false, none⟩,
        ⟨addData da db, some (onesLike (addData da db)), false, none⟩,
        ⟨addData da db, some (onesLike (addData da db)), false, none⟩], []⟩).map
      (fun st => (gradOf st 2, gradOf st 0, gradOf st 1)) =
    some (some (onesLike (addData da db)), none, none)
  rw [backwardLoop]
  simp [backwardLoop, gradOf, getT]

/-! ## Claims about the optimizers -/

/-- Claim C10: `GridSearch::step` on an empty parameter vector panics on the
out-of-bounds index `params[self.current_dim]` (it does not return an error
value), and the optimizer state is unchanged at the moment of the panic —
the panic happens before any field of `self` is written.  This holds for
every `GridSearch` state, in particular the freshly constructed one. -/
theorem c10_gridSearchEmptyPanics (s : GridSearch) :
    GridSearch.step s [] = .indexPanic s := by
  simp [GridSearch.step]

/-- Claim C6: for every optimizer variant and every input, `reset()` followed
by `step()` on a freshly constructed instance gives exactly the outcome of a
brand-new instance's first `step()` on the same inputs.  `sq` models sqrt and
`rand` the random draws; both sides see the same draws because the source's
thread-local generator is shared between instances, and `reset` on a fresh
instance restores exactly the freshly constructed state. -/
theorem c6_resetThenStepEqFreshStep (init : OptInit) (sq : ℚ → ℚ) (rand : ℕ → ℚ)
    (p g : List ℚ) :
    OptState.step sq rand (OptState.reset (mkOpt init)) p g =
      OptState.step sq rand (mkOpt init) p g := by
  cases init <;> rfl

/-- Claim C4, counterexample: the claim says every optimizer invoked with an
empty (or mismatched) parameter/gradient list fails with an
`EmptyParameterSet` error.  No such error exists in the code: `SGD::step` on
empty lists simply completes, returning the unchanged (empty) parameters and
an unchanged optimizer. -/
theorem c4_sgdEmptyStepSucceeds :
    OptState.step (fun q => q) (fun _ => 0) (mkOpt (.sgd 1)) [] [] =
      some (mkOpt (.sgd 1), []) := by
  rfl

/-- Claim C4, amended: no optimizer ever surfaces an error value.  On empty
parameter and gradient lists every variant except GridSearch completes
normally (GridSearch panics on its out-of-bounds index), and the five
gradient-based variants complete normally on lists of any (in particular
mismatched) lengths, silently updating only the zipped prefix. -/
theorem c4_noEmptyParameterSetError (init : OptInit) (sq : ℚ → ℚ) (rand : ℕ → ℚ) :
    ((OptState.step sq rand (mkOpt init) [] []).isSome = !init.isGridSearchB) ∧
    (∀ p g : List ℚ, init.isGradientBasedB = true →
      (OptState.step sq rand (mkOpt init) p g).isSome = true) := by
  constructor
  · cases init <;> rfl
  · intro p g h
    cases init <;> first
      | rfl
      | simp [OptInit.isGradientBasedB] at h

/-- Witness for C4 (amended): the Adam variant completes normally on
mismatched nonempty lists. -/
theorem c4_noEmptyParameterSetError_witness :
    (OptState.step (fun q => q) (fun _ => 0) (mkOpt (.adam 1 (1/2) (1/2) (1/100)))
      [3] [1, 2]).isSome = true :=
  (c4_noEmptyParameterSetError (.adam 1 (1/2) (1/2) (1/100)) (fun q => q) (fun _ => 0)).2
    [3] [1, 2] rfl

/-- The `SGD::step` loop only rewrites the zipped prefix: its output is the
update of the first `grads.len()` parameters followed by the untouched rest. -/
theorem SGD.stepParams_split (lr : ℚ) : ∀ (g p : List ℚ),
    SGD.stepParams lr p g = SGD.stepParams lr (p.take g.length) g ++ p.drop g.length
  | [], p => by cases p <;> simp [SGD.stepParams]
  | y :: gs, [] => by simp [SGD.stepParams]
  | y :: gs, x :: ps => by
    simp only [SGD.stepParams, List.length_cons, List.take_succ_cons, List.drop_succ_cons,
      List.cons_append]
    exact congrArg _ (SGD.stepParams_split lr gs ps)

/-- A cache-carrying step loop started on a fresh all-zero cache only rewrites
the zipped prefix of the parameters. -/
theorem cacheLoop_fresh_split (f : ℚ → ℚ → ℚ → ℚ × ℚ) : ∀ (g p : List ℚ) (n : ℕ),
    g.length ≤ p.length → g.length ≤ n →
    (cacheLoop f p g (List.replicate n 0)).1 =
      (cacheLoop f (p.take g.length) g (List.replicate g.length 0)).1 ++ p.drop g.length
  | [], p, n, _, _ => by cases p <;> cases n <;> simp [cacheLoop]
  | y :: gs, [], n, hp, _ => by simp at hp
  | y :: gs, x :: ps, 0, _, hn => by simp at hn
  | y :: gs, x :: ps, n + 1, hp, hn => by
    have hp1 : gs.length ≤ ps.length := Nat.succ_le_succ_iff.mp hp
    have hn1 : gs.length ≤ n := Nat.succ_le_succ_iff.mp hn
    simp only [List.replicate_succ, cacheLoop, List.length_cons, List.take_succ_cons,
      List.drop_succ_cons, List.cons_append]
    exact congrArg _ (cacheLoop_fresh_split f gs ps n hp1 hn1)

/-- The `Adam::step` loop started on fresh all-zero moment vectors only
rewrites the zipped prefix of the parameters. -/
theorem Adam.stepLoop_fresh_split (lr b1 b2 eps : ℚ) (sq : ℚ → ℚ) (t : ℕ) :
    ∀ (g p : List ℚ) (n : ℕ), g.length ≤ p.length → g.length ≤ n →
    (Adam.stepLoop lr b1 b2 eps sq t p g (List.replicate n 0) (List.replicate n 0)).1 =
      (Adam.stepLoop lr b1 b2 eps sq t (p.take g.length) g (List.replicate g.length 0)
        (List.replicate g.length 0)).1 ++ p.drop g.length
  | [], p, n, _, _ => by cases p <;> cases n <;> simp [Adam.stepLoop]
  | y :: gs, [], n, hp, _ => by simp at hp
  | y :: gs, x :: ps, 0, _, hn => by simp at hn
  | y :: gs, x :: ps, n + 1, hp, hn => by
    have hp1 : gs.length ≤ ps.length := Nat.succ_le_succ_iff.mp hp
    have hn1 : gs.length ≤ n := Nat.succ_le_succ_iff.mp hn
    simp only [List.replicate_succ, Adam.stepLoop, List.length_cons, List.take_succ_cons,
      List.drop_succ_cons, List.cons_append]
    exact congrArg _ (Adam.stepLoop_fresh_split lr b1 b2 eps sq t gs ps n hp1 hn1)

/-- A step function updates exactly the zipped prefix of the parameters:
its output is the step applied to the first `grads.len()` parameters,
followed by the parameters beyond that, untouched. -/
def frameSplit (stepF : List ℚ → List ℚ → List ℚ) (p g : List ℚ) : Prop :=
  stepF p g = stepF (p.take g.length) g ++ p.drop g.length

/-- Claim C9: for each gradient-based optimizer (SGD, Momentum, AdaGrad,
RMSprop, Adam) freshly constructed, when the gradient list is shorter than
the parameter list, `step` updates only the first `grads.len()` parameters
and leaves every remaining parameter unchanged; no error is raised (the step
functions are total). -/
theorem c9_gradShorterFrame (lr b1 b2 eps dr mom : ℚ) (sq : ℚ → ℚ)
    (p g : List ℚ) (h : g.length < p.length) :
    frameSplit (fun ps gs => (SGD.step (SGD.new lr) ps gs).2) p g ∧
    frameSplit (fun ps gs => (Momentum.step (Momentum.new lr mom) ps gs).2) p g ∧
    frameSplit (fun ps gs => (AdaGrad.step sq (AdaGrad.new lr eps) ps gs).2) p g ∧
    frameSplit (fun ps gs => (RMSprop.step sq (RMSprop.new lr dr eps) ps gs).2) p g ∧
    frameSplit (fun ps gs => (Adam.step sq (Adam.new lr b1 b2 eps) ps gs).2) p g := by
  refine ⟨?_, ?_, ?_, ?_, ?_⟩
  · exact SGD.stepParams_split lr g p
  · simp only [frameSplit, Momentum.step, Momentum.new, List.isEmpty_nil, if_true,
      List.length_take, min_eq_left h.le]
    exact cacheLoop_fresh_split _ g p p.length h.le h.le
  · simp only [frameSplit, AdaGrad.step, AdaGrad.new, List.isEmpty_nil, if_true,
      List.length_take, min_eq_left h.le]
    exact cacheLoop_fresh_split _ g p p.length h.le h.le
  · simp only [frameSplit, RMSprop.step, RMSprop.new, List.isEmpty_nil, if_true,
      List.length_take, min_eq_left h.le]
    exact cacheLoop_fresh_split _ g p p.length h.le h.le
  · simp only [frameSplit, Adam.step, Adam.initM, Adam.initV, Adam.new, List.isEmpty_nil,
      if_true, List.length_take, min_eq_left h.le]
    exact Adam.stepLoop_fresh_split _ _ _ _ sq _ g p p.length h.le h.le

/-- Witness for C9 at a concrete input: three parameters, one gradient. -/
theorem c9_gradShorterFrame_witness :
    [(4 : ℚ)].length < [(1 : ℚ), 2, 3].length ∧
    (frameSplit (fun ps gs => (SGD.step (SGD.new 1) ps gs).2) [1, 2, 3] [4] ∧
     frameSplit (fun ps gs => (Momentum.step (Momentum.new 1 (1/2)) ps gs).2) [1, 2, 3] [4] ∧
     frameSplit (fun ps gs => (AdaGrad.step (fun q => q) (AdaGrad.new 1 (1/100)) ps gs).2)
       [1, 2, 3] [4] ∧
     frameSplit (fun ps gs => (RMSprop.step (fun q => q) (RMSprop.new 1 (1/2) (1/100)) ps gs).2)
       [1, 2, 3] [4] ∧
     frameSplit (fun ps gs => (Adam.step (fun q => q) (Adam.new 1 (1/2) (1/2) (1/100)) ps gs).2)
       [1, 2, 3] [4]) :=
  ⟨by decide,
   c9_gradShorterFrame 1 (1/2) (1/2) (1/100) (1/2) (1/2) (fun q => q)
     [1, 2, 3] [4] (by decide)⟩

/-- Spec-side definition, from the wording of claim C5: the biased
first-moment estimate, updated with `beta1`, elementwise per matched pair. -/
def specAdamM (b1 : ℚ) (m g : List ℚ) : List ℚ :=
  List.zipWith (fun mi gi => b1 * mi + (1 - b1) * gi) m g

/-- Spec-side definition, from the wording of claim C5: the biased
second-moment estimate, updated with `beta2`, elementwise per matched pair. -/
def specAdamV (b2 : ℚ) (v g : List ℚ) : List ℚ :=
  List.zipWith (fun vi gi => b2 * vi + (1 - b2) * gi * gi) v g

/-- Spec-side definition, from the wording of claim C5: given the updated
moments, bias-correct them by the step count `t` and update each parameter as
`param -= lr * m_hat / (sqrt(v_hat) + eps)`, elementwise per matched pair. -/
def specAdamParams (lr b1 b2 eps : ℚ) (sq : ℚ → ℚ) (t : ℕ) (p m1 v1 : List ℚ) : List ℚ :=
  List.zipWith
    (fun pi mv => pi - lr * (mv.1 / (1 - b1 ^ t)) / (sq (mv.2 / (1 - b2 ^ t)) + eps))
    p (m1.zip v1)

/-- On lists of matching lengths, the `Adam::step` loop computes exactly the
spec-side moment updates and parameter update. -/
theorem Adam.stepLoop_spec (lr b1 b2 eps : ℚ) (sq : ℚ → ℚ) (t : ℕ) (p : List ℚ) :
    ∀ (g m v : List ℚ), g.length = p.length → m.length = p.length → v.length = p.length →
    Adam.stepLoop lr b1 b2 eps sq t p g m v =
      (specAdamParams lr b1 b2 eps sq t p (specAdamM b1 m g) (specAdamV b2 v g),
       specAdamM b1 m g, specAdamV b2 v g) := by
  induction p with
  | nil =>
    intro g m v hg hm hv
    rw [List.length_nil, List.length_eq_zero] at hg hm hv
    subst hg; subst hm; subst hv
    simp [Adam.stepLoop, specAdamM, specAdamV, specAdamParams]
  | cons x ps ih =>
    intro g m v hg hm hv
    cases g with
    | nil => simp at hg
    | cons gy gs =>
      cases m with
      | nil => simp at hm
      | cons my ms =>
        cases v with
        | nil => simp at hv
        | cons vy vs =>
          have hrec := ih gs ms vs (by simpa using hg) (by simpa using hm) (by simpa using hv)
          simp only [Adam.stepLoop, hrec, specAdamM, specAdamV, specAdamParams,
            List.zipWith_cons_cons, List.zip_cons_cons, Adam.update]

/-- Claim C5: `Adam::step` maintains the biased first/second moment estimates
`m`, `v` (updated with `beta1`, `beta2` from their lazily initialised
values), bias-corrects them by the incremented step count `t`, and then
updates each parameter as `param -= lr * m_hat / (sqrt(v_hat) + eps)`,
elementwise per matched (parameter, gradient) pair.  Stated for a gradient
list of matching length and a state whose moment vectors are fresh (empty,
as after construction or reset) or aligned with the parameter vector. -/
theorem c5_adamStepLaw (sq : ℚ → ℚ) (s : Adam) (p g : List ℚ)
    (hg : g.length = p.length)
    (hm : s.m = [] ∨ (s.m.length = p.length ∧ s.v.length = p.length)) :
    (Adam.step sq s p g).1.t = s.t + 1 ∧
    (Adam.step sq s p g).1.m = specAdamM s.beta1 (Adam.initM s p) g ∧
    (Adam.step sq s p g).1.v = specAdamV s.beta2 (Adam.initV s p) g ∧
    (Adam.step sq s p g).2 =
      specAdamParams s.learning_rate s.beta1 s.beta2 s.epsilon sq (s.t + 1) p
        ((Adam.step sq s p g).1.m) ((Adam.step sq s p g).1.v) := by
  have hm0 : (Adam.initM s p).length = p.length := by
    unfold Adam.initM
    rcases hm with h | ⟨h1, _⟩
    · simp [h]
    · split
      · simp
      · exact h1
  have hv0 : (Adam.initV s p).length = p.length := by
    unfold Adam.initV
    rcases hm with h | ⟨_, h2⟩
    · simp [h]
    · split
      · simp
      · exact h2
  have hloop := Adam.stepLoop_spec s.learning_rate s.beta1 s.beta2 s.epsilon sq (s.t + 1) p
    g (Adam.initM s p) (Adam.initV s p) hg hm0 hv0
  simp [Adam.step, hloop]

/-- Witness for C5 at a concrete input: a fresh Adam instance with
`lr = 1`, `beta1 = beta2 = 1/2`, `eps = 1/100`, two parameters, two
gradients. -/
theorem c5_adamStepLaw_witness :
    (Adam.step (fun q => q) (Adam.new 1 (1/2) (1/2) (1/100)) [1, 2] [3, 4]).1.t =
        (Adam.new 1 (1/2) (1/2) (1/100)).t + 1 ∧
    (Adam.step (fun q => q) (Adam.new 1 (1/2) (1/2) (1/100)) [1, 2] [3, 4]).1.m =
        specAdamM (Adam.new 1 (1/2) (1/2) (1/100)).beta1
          (Adam.initM (Adam.new 1 (1/2) (1/2) (1/100)) [1, 2]) [3, 4] ∧
    (Adam.step (fun q => q) (Adam.new 1 (1/2) (1/2) (1/100)) [1, 2] [3, 4]).1.v =
        specAdamV (Adam.new 1 (1/2) (1/2) (1/100)).beta2
          (Adam.initV (Adam.new 1 (1/2) (1/2) (1/100)) [1, 2]) [3, 4] ∧
    (Adam.step (fun q => q) (Adam.new 1 (1/2) (1/2) (1/100)) [1, 2] [3, 4]).2 =
        specAdamParams (Adam.new 1 (1/2) (1/2) (1/100)).learning_rate
          (Adam.new 1 (1/2) (1/2) (1/100)).beta1 (Adam.new 1 (1/2) (1/2) (1/100)).beta2
          (Adam.new 1 (1/2) (1/2) (1/100)).epsilon (fun q => q)
          ((Adam.new 1 (1/2) (1/2) (1/100)).t + 1) [1, 2]
          ((Adam.step (fun q => q) (Adam.new 1 (1/2) (1/2) (1/100)) [1, 2] [3, 4]).1.m)
          ((Adam.step (fun q => q) (Adam.new 1 (1/2) (1/2) (1/100)) [1, 2] [3, 4]).1.v) :=
  c5_adamStepLaw (fun q => q) (Adam.new 1 (1/2) (1/2) (1/100)) [1, 2] [3, 4] rfl (Or.inl rfl)

/-- Dividing every entry of a list by a constant divides its sum. -/
theorem sum_map_div (l : List ℚ) (c : ℚ) : (l.map (fun v => v / c)).sum = l.sum / c := by
  induction l with
  | nil => simp
  | cons x xs ih => simp [ih, add_div]

/-- Claim C8, counterexample: the claim quantifies over every finite input
vector, but on the empty vector the softmax output is empty and its sum is
`0`, not `1` (exactly, not merely outside floating tolerance). -/
theorem c8_softmaxEmptySumZero : (softmax (fun _ => 1) []).sum ≠ 1 := by
  decide

/-- Claim C8, amended: for every nonempty input vector, the softmax output
sums exactly to 1 in the exact-arithmetic model, for any exponential function
that is strictly positive (as the real `exp` is); the floating-tolerance
wording of the claim corresponds to this exact identity. -/
theorem c8_softmaxSumsToOne (expf : ℚ → ℚ) (hpos : ∀ x, 0 < expf x)
    (input : List ℚ) (hne : input ≠ []) : (softmax expf input).sum = 1 := by
  show ((input.map (fun x => expf (x - foldMax input))).map
    (fun v => v / (input.map (fun x => expf (x - foldMax input))).sum)).sum = 1
  have hexne : input.map (fun x => expf (x - foldMax input)) ≠ [] := by
    simpa using hne
  have hsum : 0 < (input.map (fun x => expf (x - foldMax input))).sum := by
    refine List.sum_pos _ ?_ hexne
    intro x hx
    obtain ⟨y, _, rfl⟩ := List.mem_map.mp hx
    exact hpos _
  rw [sum_map_div]
  exact div_self (ne_of_gt hsum)

/-- Witness for C8 (amended) at a concrete input. -/
theorem c8_softmaxSumsToOne_witness : (softmax (fun _ => (1 : ℚ)) [3, 5]).sum = 1 :=
  c8_softmaxSumsToOne (fun _ => 1) (fun _ => one_pos) [3, 5] (by decide)

/-- A flat position below the element count unflattens to an in-bounds
multi-index. -/
theorem okIx_unflatIx : ∀ (s : List ℕ) (p : ℕ), p < s.prod → okIx s (unflatIx s p)
  | [], _, _ => trivial
  | d :: ds, p, hp => by
    have hds : 0 < ds.prod := by
      rcases Nat.eq_zero_or_pos ds.prod with h | h
      · rw [List.prod_cons, h, Nat.mul_zero] at hp
        exact absurd hp (Nat.not_lt_zero p)
      · exact h
    rw [List.prod_cons] at hp
    show p / ds.prod < d ∧ okIx ds (unflatIx ds (p % ds.prod))
    exact ⟨Nat.div_lt_of_lt_mul (by rwa [Nat.mul_comm] at hp),
      okIx_unflatIx ds (p % ds.prod) (Nat.mod_lt p hds)⟩

/-- An in-bounds multi-index flattens below the element count. -/
theorem flatIx_lt : ∀ (s ix : List ℕ), okIx s ix → flatIx s ix < s.prod
  | [], [], _ => Nat.zero_lt_one
  | [], _ :: _, h => h.elim
  | _ :: _, [], h => h.elim
  | d :: ds, i :: is, h => by
    have h2 := flatIx_lt ds is h.2
    have h1 : i + 1 ≤ d := h.1
    calc flatIx (d :: ds) (i :: is) = i * ds.prod + flatIx ds is := rfl
      _ < i * ds.prod + ds.prod := by omega
      _ = (i + 1) * ds.prod := by ring
      _ ≤ d * ds.prod := Nat.mul_le_mul_right _ h1
      _ = (d :: ds).prod := (List.prod_cons).symm

/-- Unflattening inverts flattening on in-bounds multi-indices. -/
theorem unflatIx_flatIx : ∀ (s ix : List ℕ), okIx s ix → unflatIx s (flatIx s ix) = ix
  | [], [], _ => rfl
  | [], _ :: _, h => h.elim
  | _ :: _, [], h => h.elim
  | d :: ds, i :: is, h => by
    have hlt := flatIx_lt ds is h.2
    have hp : 0 < ds.prod := Nat.lt_of_le_of_lt (Nat.zero_le _) hlt
    have hq : (i * ds.prod + flatIx ds is) / ds.prod = i := by
      rw [Nat.mul_comm i, Nat.mul_add_div hp, Nat.div_eq_of_lt hlt, Nat.add_zero]
    have hr : (i * ds.prod + flatIx ds is) % ds.prod = flatIx ds is := by
      rw [Nat.mul_comm i ds.prod, Nat.mul_add_mod, Nat.mod_eq_of_lt hlt]
    show (i * ds.prod + flatIx ds is) / ds.prod
        :: unflatIx ds ((i * ds.prod + flatIx ds is) % ds.prod) = i :: is
    rw [hq, hr, unflatIx_flatIx ds is h.2]

/-- Flattening inverts unflattening on in-range flat positions. -/
theorem flatIx_unflatIx : ∀ (s : List ℕ) (p : ℕ), p < s.prod → flatIx s (unflatIx s p) = p
  | [], p, hp => by
    have hp1 : p < 1 := by simpa using hp
    show 0 = p
    omega
  | d :: ds, p, hp => by
    have hds : 0 < ds.prod := by
      rcases Nat.eq_zero_or_pos ds.prod with h | h
      · rw [List.prod_cons, h, Nat.mul_zero] at hp
        exact absurd hp (Nat.not_lt_zero p)
      · exact h
    show p / ds.prod * ds.prod + flatIx ds (unflatIx ds (p % ds.prod)) = p
    rw [flatIx_unflatIx ds (p % ds.prod) (Nat.mod_lt p hds), Nat.mul_comm]
    exact Nat.div_add_mod p ds.prod

/-- In-bounds multi-indices of concatenated shapes concatenate. -/
theorem okIx_append : ∀ (s1 ix1 s2 ix2 : List ℕ), okIx s1 ix1 → okIx s2 ix2 →
    okIx (s1 ++ s2) (ix1 ++ ix2)
  | [], [], _, _, _, h2 => h2
  | [], _ :: _, _, _, h1, _ => h1.elim
  | _ :: _, [], _, _, h1, _ => h1.elim
  | _ :: ds, _ :: is, s2, ix2, h1, h2 => ⟨h1.1, okIx_append ds is s2 ix2 h1.2 h2⟩

/-- Reversing a shape and an in-bounds multi-index keeps it in bounds. -/
theorem okIx_reverse : ∀ (s ix : List ℕ), okIx s ix → okIx s.reverse ix.reverse
  | [], [], h => h
  | [], _ :: _, h => h.elim
  | _ :: _, [], h => h.elim
  | d :: ds, i :: is, h => by
    rw [List.reverse_cons, List.reverse_cons]
    exact okIx_append ds.reverse is.reverse [d] [i] (okIx_reverse ds is h.2) ⟨h.1, trivial⟩

/-- Reading position `q` of `(range n).map f` gives `f q`. -/
theorem getD_map_range (f : ℕ → ℚ) (n q : ℕ) (hq : q < n) (d : ℚ) :
    ((List.range n).map f).getD q d = f q := by
  rw [List.getD_eq_getElem?_getD, List.getElem?_map, List.getElem?_range hq]
  rfl

/-- Reading every position of a list back, in order, rebuilds the list. -/
theorem map_range_getD (l : List ℚ) :
    (List.range l.length).map (fun p => l.getD p 0) = l := by
  apply List.ext_getElem
  · simp
  · intro i h1 h2
    simp [List.getD_eq_getElem?_getD, List.getElem?_eq_getElem h2]

/-- Claim C7: `transpose` with no explicit axis permutation, applied twice to
a well-formed tensor of any shape, returns the original tensor. -/
theorem c7_transposeInvolutive (a : Nd) (h : a.wf) : transpose (transpose a) = a := by
  obtain ⟨s, l⟩ := a
  have hlen : l.length = s.prod := h
  show Nd.mk s.reverse.reverse _ = Nd.mk s l
  rw [Nd.mk.injEq]
  refine ⟨List.reverse_reverse s, ?_⟩
  show (List.range s.reverse.reverse.prod).map
      (fun p => ((List.range s.reverse.prod).map
        (fun q => l.getD (flatIx s ((unflatIx s.reverse q).reverse)) 0)).getD
        (flatIx s.reverse ((unflatIx s.reverse.reverse p).reverse)) 0) = l
  simp only [List.reverse_reverse]
  have step : ∀ p ∈ List.range s.prod,
      ((List.range s.reverse.prod).map
        (fun q => l.getD (flatIx s ((unflatIx s.reverse q).reverse)) 0)).getD
        (flatIx s.reverse ((unflatIx s p).reverse)) 0 = l.getD p 0 := by
    intro p hp
    have hps : p < s.prod := List.mem_range.mp hp
    have hok : okIx s (unflatIx s p) := okIx_unflatIx s p hps
    have hokr : okIx s.reverse (unflatIx s p).reverse := okIx_reverse s (unflatIx s p) hok
    have hqlt : flatIx s.reverse (unflatIx s p).reverse < s.reverse.prod :=
      flatIx_lt s.reverse (unflatIx s p).reverse hokr
    rw [getD_map_range _ _ _ hqlt, unflatIx_flatIx s.reverse (unflatIx s p).reverse hokr,
      List.reverse_reverse, flatIx_unflatIx s p hps]
  rw [List.map_congr_left step, ← hlen, map_range_getD]

/-- Witness for C7 at a concrete 2×3 tensor. -/
theorem c7_transposeInvolutive_witness :
    (Nd.mk [2, 3] [1, 2, 3, 4, 5, 6]).wf ∧
    transpose (transpose (Nd.mk [2, 3] [1, 2, 3, 4, 5, 6])) = Nd.mk [2, 3] [1, 2, 3, 4, 5, 6] :=
  ⟨by unfold Nd.wf; decide, c7_transposeInvolutive (Nd.mk [2, 3] [1, 2, 3, 4, 5, 6])
    (by unfold Nd.wf; decide)⟩

end Rax
